import Mathlib

/-!
Shallow embedding of the hash-linked ledger HTTP service (src/src/main.rs).

Modelling conventions:
* `u64` values are `Nat` with arithmetic reduced modulo `2 ^ 64` at the points
  where the Rust code performs `u64` addition (`u64succ`).
* The SHA-256 digest (external `sha2` crate) is modelled as an abstract
  function `H : String → String` applied to the record string that
  `calculate_hash` builds; the spec's collision-resistance assumption is an
  injectivity hypothesis where a theorem needs it.
* `Utc::now().to_string()` (external `chrono` crate) is a nondeterministic
  wall-clock read, modelled as an explicit `ts : String` parameter.
* JSON serialization (external `serde_json` crate) is modelled as abstract
  functions `List Block → Except String String` / `Block → Except String String`
  mirroring `serde_json::to_string_pretty`'s `Result`.
* A Rust panic (`.unwrap()` on an `Err`/`None`, out-of-bounds indexing) is
  modelled as `Option.none` in the result of the operation that panics.
-/

namespace BlockchainTutorial

/-- Mirrors `struct Block` of the source: five fields, `index` and `bpm` are
`u64` (here `Nat`, kept below `2 ^ 64` by the operations), the rest strings. -/
structure Block where
  index : Nat
  timestamp : String
  bpm : Nat
  hash : String
  prev_hash : String
deriving DecidableEq

/-- Mirrors `struct Message` of the source: the decoded POST body, one `u64`
field `bpm`. -/
structure Message where
  bpm : Nat
deriving DecidableEq

/-- Mirrors `struct Blockchain(Vec<Block>)` of the source. -/
abbrev Blockchain := List Block

/-- The `u64` modulus. -/
def U64MOD : Nat := 2 ^ 64

/-- Successor in `u64` arithmetic: `old_block.index + 1` as the Rust `u64`
addition computes it (wrapping at `2 ^ 64`). -/
def u64succ (n : Nat) : Nat := (n + 1) % U64MOD

/-- The record string hashed by `calculate_hash`:
`block.index.to_string() + &block.timestamp + &block.bpm.to_string() + &block.prev_hash`. -/
def record (b : Block) : String :=
  toString b.index ++ b.timestamp ++ toString b.bpm ++ b.prev_hash

/-- Mirrors `fn calculate_hash`: SHA-256 of the record string, the digest
being an abstract function `H` of the record. -/
def calculate_hash (H : String → String) (b : Block) : String :=
  H (record b)

/-- Mirrors `fn generate_block`: starts from `Block::default()` (all fields
zero/empty), sets `index = old_block.index + 1`, a fresh timestamp `ts`,
`bpm`, `prev_hash = old_block.hash`, and finally `hash = calculate_hash` of
the block as it stands (its `hash` field still the default `""`). -/
def generate_block (H : String → String) (old_block : Block) (bpm : Nat)
    (ts : String) : Block :=
  let b : Block :=
    { index := u64succ old_block.index, timestamp := ts, bpm := bpm,
      hash := "", prev_hash := old_block.hash }
  { b with hash := calculate_hash H b }

/-- The genesis block built by `fn init_blockchain`: `index = 0`, a fresh
timestamp, `bpm = 0`, `prev_hash = ""`, then `hash = calculate_hash` of the
block as it stands. -/
def init_block (H : String → String) (ts : String) : Block :=
  let b : Block :=
    { index := 0, timestamp := ts, bpm := 0, hash := "", prev_hash := "" }
  { b with hash := calculate_hash H b }

/-- Mirrors `fn init_blockchain`: the chain holding exactly the genesis block. -/
def init_blockchain (H : String → String) (ts : String) : Blockchain :=
  [init_block H ts]

/-- Mirrors `fn is_block_valid`: three checks in order, returning `false` at
the first failure. -/
def is_block_valid (H : String → String) (new_block old_block : Block) : Bool :=
  if u64succ old_block.index ≠ new_block.index then false
  else if old_block.hash ≠ new_block.prev_hash then false
  else if calculate_hash H new_block ≠ new_block.hash then false
  else true

/-- An HTTP response: status code and body. -/
structure Response where
  status : Nat
  body : String
deriving DecidableEq

/-- Mirrors `fn respond_with_json`: a 200 response with the serialized JSON on
success, a 500 "Internal Server Error" response when serialization fails. -/
def respond_with_json (r : Except String String) : Response :=
  match r with
  | .ok json => { status := 200, body := json }
  | .error _ => { status := 500, body := "Internal Server Error" }

/-- Mirrors `fn handle_get_blockchain`: serializes the whole chain; the chain
itself is not modified. -/
def handle_get_blockchain (serChain : Blockchain → Except String String)
    (chain : Blockchain) : Response × Blockchain :=
  (respond_with_json (serChain chain), chain)

/-- Mirrors `fn handle_post_blockchain`. `decoded` is the result of
`serde_json::from_slice` on the request body; the source calls `.unwrap()` on
it, so a failed decode is the panic `none`. The tail is `chain[len - 1]`
(`getLast?`; the out-of-bounds panic on an empty chain is also `none`). On
success the result carries the JSON response, the candidate block that was
serialized into it, and the updated chain: the candidate is pushed exactly
when `is_block_valid` holds, and the candidate is returned either way. -/
def handle_post_blockchain (H : String → String)
    (serBlock : Block → Except String String) (decoded : Option Message)
    (ts : String) (chain : Blockchain) :
    Option (Response × Block × Blockchain) :=
  match decoded with
  | none => none
  | some msg =>
    match chain.getLast? with
    | none => none
    | some old_block =>
      let new_block := generate_block H old_block msg.bpm ts
      let chain' :=
        if is_block_valid H new_block old_block then chain ++ [new_block]
        else chain
      some (respond_with_json (serBlock new_block), new_block, chain')

/-- The HTTP methods hyper can report to the router. -/
inductive Method
  | GET | POST | PUT | DELETE | HEAD | OPTIONS | CONNECT | PATCH | TRACE
deriving DecidableEq

/-- Mirrors `fn router`: GET is served by `handle_get_blockchain`, POST by
`handle_post_blockchain`, every other method gets a 404 response with body
"Not Found" and the chain untouched. -/
def router (H : String → String)
    (serChain : Blockchain → Except String String)
    (serBlock : Block → Except String String) (m : Method)
    (decoded : Option Message) (ts : String) (chain : Blockchain) :
    Option (Response × Blockchain) :=
  match m with
  | .GET => some (handle_get_blockchain serChain chain)
  | .POST =>
    (handle_post_blockchain H serBlock decoded ts chain).map
      (fun r => (r.1, r.2.2))
  | _ => some ({ status := 404, body := "Not Found" }, chain)

/-- Models the `serde` deserialization of a JSON integer into the `u64` field
`bpm` of `Message` (external `serde_json` crate): values outside `[0, 2^64)`,
negative ones in particular, fail to decode. -/
def decode_u64 (i : Int) : Option Nat :=
  if 0 ≤ i ∧ i < (U64MOD : Int) then some i.toNat else none

/-- The ledger states reachable by the program: the genesis chain, extended by
successful appends. Each append takes the true current tail, an arbitrary
`u64` payload and an arbitrary timestamp, and pushes the generated candidate
when `is_block_valid` accepts it — exactly the committing path of
`handle_post_blockchain`. The index tracks the number of appends. -/
inductive ReachableN (H : String → String) : Nat → Blockchain → Prop
  | genesis (ts : String) : ReachableN H 0 (init_blockchain H ts)
  | append (n : Nat) (c : Blockchain) (ts : String) (bpm : Nat) (old : Block)
      (hbpm : bpm < U64MOD) (hc : ReachableN H n c)
      (hold : c.getLast? = some old)
      (hvalid : is_block_valid H (generate_block H old bpm ts) old = true) :
      ReachableN H (n + 1) (c ++ [generate_block H old bpm ts])

/-- The adjacent-pair linkage relation of the spec's chain invariant. -/
def Linked (H : String → String) (old new : Block) : Prop :=
  new.index = u64succ old.index ∧ new.prev_hash = old.hash ∧
    calculate_hash H new = new.hash

/-- Numeric value of a decimal digit character. -/
def digitVal (c : Char) : Nat := c.toNat - 48

/-- Reads a decimal digit string back into a number (left inverse used to
prove that decimal rendering is injective). -/
def parseDigits (l : List Char) : Nat :=
  l.foldl (fun a c => 10 * a + digitVal c) 0

theorem digitVal_digitChar (d : Nat) (h : d < 10) :
    digitVal (Nat.digitChar d) = d := by
  interval_cases d <;> rfl

theorem toDigitsCore_acc (fuel : Nat) : ∀ (n : Nat) (ds : List Char),
    Nat.toDigitsCore 10 fuel n ds = Nat.toDigitsCore 10 fuel n [] ++ ds := by
  induction fuel with
  | zero => intro n ds; simp [Nat.toDigitsCore]
  | succ fuel ih =>
    intro n ds
    simp only [Nat.toDigitsCore]
    by_cases h : n / 10 = 0
    · simp [h]
    · simp only [h, if_false]
      rw [ih (n / 10) (Nat.digitChar (n % 10) :: ds),
        ih (n / 10) [Nat.digitChar (n % 10)]]
      simp

theorem toDigitsCore_fuel (n : Nat) : ∀ fuel fuel' : Nat, n < fuel → n < fuel' →
    Nat.toDigitsCore 10 fuel n [] = Nat.toDigitsCore 10 fuel' n [] := by
  induction n using Nat.strong_induction_on with
  | _ n ih =>
    intro fuel fuel' h h'
    cases fuel with
    | zero => omega
    | succ f =>
      cases fuel' with
      | zero => omega
      | succ f' =>
        simp only [Nat.toDigitsCore]
        by_cases h0 : n / 10 = 0
        · simp [h0]
        · simp only [h0, if_false]
          have hpos : 0 < n := by
            rcases Nat.eq_zero_or_pos n with hz | hp
            · exact absurd (by simp [hz]) h0
            · exact hp
          have hlt : n / 10 < n := Nat.div_lt_self hpos (by norm_num)
          rw [toDigitsCore_acc f, toDigitsCore_acc f',
            ih (n / 10) hlt f f' (by omega) (by omega)]

theorem toDigits_small (n : Nat) (h : n < 10) :
    Nat.toDigits 10 n = [Nat.digitChar n] := by
  simp [Nat.toDigits, Nat.toDigitsCore, Nat.div_eq_of_lt h, Nat.mod_eq_of_lt h]

theorem toDigits_step (n : Nat) (h : 10 ≤ n) :
    Nat.toDigits 10 n = Nat.toDigits 10 (n / 10) ++ [Nat.digitChar (n % 10)] := by
  have h0 : ¬ n / 10 = 0 := by
    have : 0 < n / 10 := Nat.div_pos h (by norm_num)
    omega
  show Nat.toDigitsCore 10 (n + 1) n [] = _
  simp only [Nat.toDigitsCore, h0, if_false]
  rw [toDigitsCore_acc n (n / 10)]
  have hlt : n / 10 < n := Nat.div_lt_self (by omega) (by norm_num)
  rw [toDigitsCore_fuel (n / 10) n (n / 10 + 1) hlt (Nat.lt_succ_self _)]
  rfl

theorem parseDigits_toDigits (n : Nat) :
    parseDigits (Nat.toDigits 10 n) = n := by
  induction n using Nat.strong_induction_on with
  | _ n ih =>
    by_cases h : n < 10
    · rw [toDigits_small n h]
      simp [parseDigits, digitVal_digitChar n h]
    · rw [toDigits_step n (by omega)]
      have hlt : n / 10 < n := Nat.div_lt_self (by omega) (by norm_num)
      have hmod : n % 10 < 10 := Nat.mod_lt n (by norm_num)
      simp only [parseDigits, List.foldl_append, List.foldl_cons, List.foldl_nil]
      have hrec : List.foldl (fun a c => 10 * a + digitVal c) 0
          (Nat.toDigits 10 (n / 10)) = n / 10 := ih (n / 10) hlt
      rw [hrec, digitVal_digitChar _ hmod]
      omega

theorem natRepr_injective : Function.Injective Nat.repr := by
  intro m n h
  have hd : Nat.toDigits 10 m = Nat.toDigits 10 n := by
    have hdata := congrArg String.data h
    simpa [Nat.repr, List.asString] using hdata
  have hp := congrArg parseDigits hd
  rwa [parseDigits_toDigits, parseDigits_toDigits] at hp

theorem toString_eq_repr (n : Nat) : (toString n : String) = Nat.repr n := rfl

theorem string_append_right_cancel {a b c : String} (h : a ++ c = b ++ c) :
    a = b := by
  apply String.ext
  have hdata := congrArg String.data h
  simp only [String.data_append] at hdata
  exact List.append_cancel_right hdata

theorem string_append_left_cancel {a b c : String} (h : a ++ b = a ++ c) :
    b = c := by
  apply String.ext
  have hdata := congrArg String.data h
  simp only [String.data_append] at hdata
  exact List.append_cancel_left hdata

theorem record_def (b : Block) :
    record b = Nat.repr b.index ++ b.timestamp ++ Nat.repr b.bpm ++ b.prev_hash :=
  rfl

theorem record_cancel_index {b b' : Block} (hts : b.timestamp = b'.timestamp)
    (hbpm : b.bpm = b'.bpm) (hp : b.prev_hash = b'.prev_hash)
    (h : record b = record b') : b.index = b'.index := by
  rw [record_def, record_def, hts, hbpm, hp] at h
  have h1 := string_append_right_cancel h
  have h2 := string_append_right_cancel h1
  have h3 := string_append_right_cancel h2
  exact natRepr_injective h3

theorem record_cancel_timestamp {b b' : Block} (hi : b.index = b'.index)
    (hbpm : b.bpm = b'.bpm) (hp : b.prev_hash = b'.prev_hash)
    (h : record b = record b') : b.timestamp = b'.timestamp := by
  rw [record_def, record_def, hi, hbpm, hp] at h
  have h1 := string_append_right_cancel h
  have h2 := string_append_right_cancel h1
  exact string_append_left_cancel h2

theorem record_cancel_bpm {b b' : Block} (hi : b.index = b'.index)
    (hts : b.timestamp = b'.timestamp) (hp : b.prev_hash = b'.prev_hash)
    (h : record b = record b') : b.bpm = b'.bpm := by
  rw [record_def, record_def, hi, hts, hp] at h
  have h1 := string_append_right_cancel h
  have h2 := string_append_left_cancel h1
  exact natRepr_injective h2

theorem record_cancel_prev_hash {b b' : Block} (hi : b.index = b'.index)
    (hts : b.timestamp = b'.timestamp) (hbpm : b.bpm = b'.bpm)
    (h : record b = record b') : b.prev_hash = b'.prev_hash := by
  rw [record_def, record_def, hi, hts, hbpm] at h
  exact string_append_left_cancel h

theorem record_ignores_hash (b : Block) (h : String) :
    record { b with hash := h } = record b :=
  rfl

theorem calculate_hash_congr (H : String → String) {b b' : Block}
    (hi : b.index = b'.index) (hts : b.timestamp = b'.timestamp)
    (hbpm : b.bpm = b'.bpm) (hp : b.prev_hash = b'.prev_hash) :
    calculate_hash H b = calculate_hash H b' := by
  unfold calculate_hash
  rw [record_def, record_def, hi, hts, hbpm, hp]

theorem valid_iff (H : String → String) (nb ob : Block) :
    is_block_valid H nb ob = true ↔
      u64succ ob.index = nb.index ∧ ob.hash = nb.prev_hash ∧
        calculate_hash H nb = nb.hash := by
  unfold is_block_valid
  split_ifs with h1 h2 h3 <;> simp_all

theorem gen_valid (H : String → String) (old : Block) (bpm : Nat) (ts : String) :
    is_block_valid H (generate_block H old bpm ts) old = true := by
  rw [valid_iff]
  exact ⟨rfl, rfl, rfl⟩

theorem gen_linked (H : String → String) (old : Block) (bpm : Nat) (ts : String) :
    Linked H old (generate_block H old bpm ts) :=
  ⟨rfl, rfl, rfl⟩

theorem reachable_ne_nil {H : String → String} {n : Nat} {c : Blockchain}
    (h : ReachableN H n c) : c ≠ [] := by
  induction h with
  | genesis ts => simp [init_blockchain]
  | append n c ts bpm old hbpm hc hold hvalid ih => simp

theorem reachable_length {H : String → String} {n : Nat} {c : Blockchain}
    (h : ReachableN H n c) : c.length = n + 1 := by
  induction h with
  | genesis ts => rfl
  | append n c ts bpm old hbpm hc hold hvalid ih => simp [ih]

theorem reachable_chain {H : String → String} {n : Nat} {c : Blockchain}
    (h : ReachableN H n c) : List.Chain' (Linked H) c := by
  induction h with
  | genesis ts => simp [init_blockchain]
  | append n c ts bpm old hbpm hc hold hvalid ih =>
    rw [List.chain'_append]
    refine ⟨ih, List.chain'_singleton _, ?_⟩
    intro x hx y hy
    simp only [List.head?_cons, Option.mem_def, Option.some.injEq] at hy
    rw [hold, Option.mem_def, Option.some.injEq] at hx
    subst hx
    subst hy
    exact gen_linked H old bpm ts

theorem reachable_index_map {H : String → String} {n : Nat} {c : Blockchain}
    (h : ReachableN H n c) :
    c.map Block.index = (List.range (n + 1)).map (fun i => i % U64MOD) := by
  induction h with
  | genesis ts =>
    simp [init_blockchain, init_block, List.range_succ, Nat.zero_mod]
  | append n c ts bpm old hbpm hc hold hvalid ih =>
    have hlen : c.length = n + 1 := reachable_length hc
    have hlast : (c.map Block.index).getLast? = some old.index := by
      rw [List.getLast?_map, hold]
      rfl
    have hlast' : ((List.range (n + 1)).map (fun i => i % U64MOD)).getLast?
        = some (n % U64MOD) := by
      rw [List.getLast?_map, List.range_succ, List.getLast?_concat]
      rfl
    have hold_index : old.index = n % U64MOD := by
      rw [ih, hlast'] at hlast
      injection hlast with hx
      exact hx.symm
    have hnew : (generate_block H old bpm ts).index = (n + 1) % U64MOD := by
      show u64succ old.index = (n + 1) % U64MOD
      rw [hold_index]
      exact Nat.mod_add_mod n U64MOD 1
    rw [List.map_append, ih, List.map_singleton, hnew]
    rw [show n + 1 + 1 = (n + 1) + 1 from rfl, List.range_succ (n := n + 1)]
    simp

theorem reachable_index_exact {H : String → String} {n : Nat} {c : Blockchain}
    (h : ReachableN H n c) (hn : n < U64MOD) :
    c.map Block.index = List.range (n + 1) := by
  rw [reachable_index_map h]
  have : ∀ i ∈ List.range (n + 1), i % U64MOD = i := by
    intro i hi
    rw [List.mem_range] at hi
    exact Nat.mod_eq_of_lt (by omega)
  rw [List.map_congr_left this]
  simp

theorem reachable_bounds {H : String → String} {n : Nat} {c : Blockchain}
    (h : ReachableN H n c) : ∀ b ∈ c, b.bpm < U64MOD ∧ b.index < U64MOD := by
  have hM : 0 < U64MOD := by
    show 0 < 2 ^ 64
    positivity
  induction h with
  | genesis ts =>
    intro b hb
    simp only [init_blockchain, List.mem_singleton] at hb
    subst hb
    exact ⟨hM, hM⟩
  | append n c ts bpm old hbpm hc hold hvalid ih =>
    intro b hb
    rw [List.mem_append, List.mem_singleton] at hb
    rcases hb with hb | hb
    · exact ih b hb
    · subst hb
      refine ⟨hbpm, ?_⟩
      show u64succ old.index < U64MOD
      exact Nat.mod_lt _ hM

/-- C1: Chain linkage invariant. Every reachable ledger state (genesis plus N
successful appends) is non-empty, holds exactly N + 1 blocks, every adjacent
pair (old, new) satisfies new.index = old.index + 1 (as u64), new.prev_hash =
old.hash and calculate_hash(new) = new.hash, and for N below the u64 wrap
bound the index values are exactly 0..N in order. -/
theorem chain_linkage_invariant (H : String → String) (n : Nat) (c : Blockchain)
    (h : ReachableN H n c) :
    c ≠ [] ∧ c.length = n + 1 ∧ List.Chain' (Linked H) c ∧
      (n < U64MOD → c.map Block.index = List.range (n + 1)) :=
  ⟨reachable_ne_nil h, reachable_length h, reachable_chain h,
    fun hn => reachable_index_exact h hn⟩

/-- Witness for C1: the chain after one successful append of payload 60 onto
the genesis chain, with the identity digest. -/
theorem chain_linkage_invariant_witness :
    (init_blockchain id "g" ++ [generate_block id (init_block id "g") 60 "t"])
        ≠ [] ∧
      (init_blockchain id "g" ++
        [generate_block id (init_block id "g") 60 "t"]).length = 1 + 1 ∧
      List.Chain' (Linked id)
        (init_blockchain id "g" ++
          [generate_block id (init_block id "g") 60 "t"]) ∧
      (1 < U64MOD →
        (init_blockchain id "g" ++
          [generate_block id (init_block id "g") 60 "t"]).map Block.index =
            List.range (1 + 1)) :=
  chain_linkage_invariant id 1 _
    (ReachableN.append 0 (init_blockchain id "g") "t" 60 (init_block id "g")
      (by norm_num [U64MOD]) (ReachableN.genesis "g") rfl
      (gen_valid id (init_block id "g") 60 "t"))

/-- C2: a candidate generated from the true current tail always validates, so
the append of handle_post_blockchain never takes the rejection branch: it
always pushes exactly the candidate. -/
theorem generated_block_always_valid (H : String → String) (tail : Block)
    (bpm : Nat) (ts : String) (serBlock : Block → Except String String)
    (msg : Message) (chain : Blockchain) (h : chain.getLast? = some tail) :
    is_block_valid H (generate_block H tail bpm ts) tail = true ∧
      handle_post_blockchain H serBlock (some msg) ts chain =
        some (respond_with_json (serBlock (generate_block H tail msg.bpm ts)),
          generate_block H tail msg.bpm ts,
          chain ++ [generate_block H tail msg.bpm ts]) := by
  refine ⟨gen_valid H tail bpm ts, ?_⟩
  unfold handle_post_blockchain
  rw [h]
  simp [gen_valid]

/-- Witness for C2: appending payload 60 to the genesis chain with the
identity digest. -/
theorem generated_block_always_valid_witness :
    is_block_valid id (generate_block id (init_block id "g") 60 "t")
        (init_block id "g") = true ∧
      handle_post_blockchain id (fun _ => Except.ok "json") (some ⟨60⟩) "t"
          (init_blockchain id "g") =
        some (respond_with_json (Except.ok "json"),
          generate_block id (init_block id "g") 60 "t",
          init_blockchain id "g" ++
            [generate_block id (init_block id "g") 60 "t"]) :=
  generated_block_always_valid id (init_block id "g") 60 "t"
    (fun _ => Except.ok "json") ⟨60⟩ (init_blockchain id "g") rfl

/-- C3: with the digest function injective (the spec's collision-resistance
assumption on SHA-256), calculate_hash is a pure function of
(index, timestamp, payload, prev_hash): equal fields give an equal digest, and
changing any single one of the four fields changes the digest. -/
theorem hash_deterministic_and_field_sensitive (H : String → String)
    (hH : Function.Injective H) :
    (∀ b b' : Block, b.index = b'.index → b.timestamp = b'.timestamp →
      b.bpm = b'.bpm → b.prev_hash = b'.prev_hash →
      calculate_hash H b = calculate_hash H b') ∧
    (∀ (b : Block) (i : Nat), i ≠ b.index →
      calculate_hash H { b with index := i } ≠ calculate_hash H b) ∧
    (∀ (b : Block) (t : String), t ≠ b.timestamp →
      calculate_hash H { b with timestamp := t } ≠ calculate_hash H b) ∧
    (∀ (b : Block) (m : Nat), m ≠ b.bpm →
      calculate_hash H { b with bpm := m } ≠ calculate_hash H b) ∧
    (∀ (b : Block) (p : String), p ≠ b.prev_hash →
      calculate_hash H { b with prev_hash := p } ≠ calculate_hash H b) := by
  refine ⟨fun b b' hi hts hbpm hp => calculate_hash_congr H hi hts hbpm hp,
    ?_, ?_, ?_, ?_⟩
  · intro b i hne heq
    have hrec : record { b with index := i } = record b := hH heq
    exact hne (@record_cancel_index { b with index := i } b rfl rfl rfl hrec)
  · intro b t hne heq
    have hrec : record { b with timestamp := t } = record b := hH heq
    exact hne
      (@record_cancel_timestamp { b with timestamp := t } b rfl rfl rfl hrec)
  · intro b m hne heq
    have hrec : record { b with bpm := m } = record b := hH heq
    exact hne (@record_cancel_bpm { b with bpm := m } b rfl rfl rfl hrec)
  · intro b p hne heq
    have hrec : record { b with prev_hash := p } = record b := hH heq
    exact hne
      (@record_cancel_prev_hash { b with prev_hash := p } b rfl rfl rfl hrec)

/-- Witness for C3: with the identity digest, bumping the index of a concrete
block changes the digest. -/
theorem hash_deterministic_and_field_sensitive_witness :
    Function.Injective (id : String → String) ∧
      calculate_hash id
          { index := 2, timestamp := "t", bpm := 60, hash := "",
            prev_hash := "p" } ≠
        calculate_hash id
          { index := 1, timestamp := "t", bpm := 60, hash := "",
            prev_hash := "p" } :=
  ⟨fun _ _ hx => hx,
    (hash_deterministic_and_field_sensitive id (fun _ _ hx => hx)).2.1
      { index := 1, timestamp := "t", bpm := 60, hash := "", prev_hash := "p" }
      2 (by decide)⟩

/-- C4: a POST body that fails to decode makes handle_post_blockchain hit the
`.unwrap()` panic (modelled as `none`): the core append is not invoked, but the
handler does not return a response either — the failure path terminates the
task instead of returning a value, contradicting the spec's requirement. -/
theorem malformed_body_panics :
    handle_post_blockchain id (fun _ => Except.ok "json") none "t"
      (init_blockchain id "g") = none :=
  rfl

/-- C5: append atomicity and return contract: given the tail of the chain,
handle_post_blockchain returns exactly the candidate block together with the
chain extended by the candidate when it validates and the unchanged chain
otherwise, and the response serializes that same candidate in both cases. -/
theorem append_atomic_return_candidate (H : String → String)
    (serBlock : Block → Except String String) (msg : Message) (ts : String)
    (chain : Blockchain) (old : Block) (h : chain.getLast? = some old) :
    handle_post_blockchain H serBlock (some msg) ts chain =
      some (respond_with_json (serBlock (generate_block H old msg.bpm ts)),
        generate_block H old msg.bpm ts,
        if is_block_valid H (generate_block H old msg.bpm ts) old
          then chain ++ [generate_block H old msg.bpm ts] else chain) := by
  unfold handle_post_blockchain
  rw [h]

/-- Witness for C5 at the genesis chain with the identity digest. -/
theorem append_atomic_return_candidate_witness :
    handle_post_blockchain id (fun _ => Except.ok "json") (some ⟨75⟩) "t"
        (init_blockchain id "g") =
      some (respond_with_json (Except.ok "json"),
        generate_block id (init_block id "g") 75 "t",
        if is_block_valid id (generate_block id (init_block id "g") 75 "t")
            (init_block id "g")
          then init_blockchain id "g" ++
            [generate_block id (init_block id "g") 75 "t"]
          else init_blockchain id "g") :=
  append_atomic_return_candidate id (fun _ => Except.ok "json") ⟨75⟩ "t"
    (init_blockchain id "g") (init_block id "g") rfl

/-- C6: is_block_valid returns true exactly when the three checks hold —
sequential index (u64), prev-hash linkage, and content integrity — and any
single failing check forces the result false, with no exception (the result is
a total Bool). -/
theorem is_block_valid_characterization (H : String → String)
    (candidate reference : Block) :
    (is_block_valid H candidate reference = true ↔
      u64succ reference.index = candidate.index ∧
        reference.hash = candidate.prev_hash ∧
        calculate_hash H candidate = candidate.hash) ∧
    (u64succ reference.index ≠ candidate.index →
      is_block_valid H candidate reference = false) ∧
    (reference.hash ≠ candidate.prev_hash →
      is_block_valid H candidate reference = false) ∧
    (calculate_hash H candidate ≠ candidate.hash →
      is_block_valid H candidate reference = false) := by
  refine ⟨valid_iff H candidate reference, ?_, ?_, ?_⟩ <;>
    · intro hne
      cases hb : is_block_valid H candidate reference
      · rfl
      · exact absurd ((valid_iff H candidate reference).mp hb) (by tauto)

/-- Witness for C6: the validation accepts a properly generated successor of
the genesis block and rejects the genesis block against itself. -/
theorem is_block_valid_characterization_witness :
    is_block_valid id (generate_block id (init_block id "g") 60 "t")
        (init_block id "g") = true ∧
      is_block_valid id (init_block id "g") (init_block id "g") = false :=
  ⟨(is_block_valid_characterization id
      (generate_block id (init_block id "g") 60 "t") (init_block id "g")).1.mpr
      ⟨rfl, rfl, rfl⟩,
    (is_block_valid_characterization id (init_block id "g")
      (init_block id "g")).2.1 (by decide)⟩

/-- C7: genesis postcondition: a freshly initialized ledger is exactly the
one-element chain holding the genesis block, whose index is 0, prev_hash is
the empty string, and hash is calculate_hash of the genesis block's own
fields. -/
theorem genesis_postcondition (H : String → String) (ts : String) :
    init_blockchain H ts = [init_block H ts] ∧
      (init_blockchain H ts).length = 1 ∧
      (init_block H ts).index = 0 ∧
      (init_block H ts).prev_hash = "" ∧
      calculate_hash H (init_block H ts) = (init_block H ts).hash :=
  ⟨rfl, rfl, rfl, rfl, rfl⟩

/-- C8: routing: any method other than GET and POST gets a 404 response with
body "Not Found" and an unchanged chain; GET gets the serialized chain with an
unchanged chain; a POST whose body decodes gets the serialized candidate and
the chain extended by it. -/
theorem router_dispatch (H : String → String)
    (serChain : Blockchain → Except String String)
    (serBlock : Block → Except String String) (m : Method)
    (decoded : Option Message) (ts : String) (chain : Blockchain) :
    (m ≠ Method.GET → m ≠ Method.POST →
      router H serChain serBlock m decoded ts chain =
        some ({ status := 404, body := "Not Found" }, chain)) ∧
    (∀ s, serChain chain = Except.ok s →
      router H serChain serBlock Method.GET decoded ts chain =
        some ({ status := 200, body := s }, chain)) ∧
    (∀ (msg : Message) (old : Block) (s : String), decoded = some msg →
      chain.getLast? = some old →
      serBlock (generate_block H old msg.bpm ts) = Except.ok s →
      router H serChain serBlock Method.POST decoded ts chain =
        some ({ status := 200, body := s },
          chain ++ [generate_block H old msg.bpm ts])) := by
  refine ⟨?_, ?_, ?_⟩
  · intro hg hp
    cases m <;> first | rfl | exact absurd rfl hg | exact absurd rfl hp
  · intro s hs
    simp [router, handle_get_blockchain, respond_with_json, hs]
  · intro msg old s hdec hold hser
    subst hdec
    simp [router, handle_post_blockchain, hold, gen_valid, respond_with_json,
      hser]

/-- Witness for C8: a PUT, a GET and a POST against the genesis chain with the
identity digest and constant serializers. -/
theorem router_dispatch_witness :
    router id (fun _ => Except.ok "[]") (fun _ => Except.ok "blk") Method.PUT
        (some ⟨60⟩) "t" (init_blockchain id "g") =
      some ({ status := 404, body := "Not Found" }, init_blockchain id "g") ∧
    router id (fun _ => Except.ok "[]") (fun _ => Except.ok "blk") Method.GET
        (some ⟨60⟩) "t" (init_blockchain id "g") =
      some ({ status := 200, body := "[]" }, init_blockchain id "g") ∧
    router id (fun _ => Except.ok "[]") (fun _ => Except.ok "blk") Method.POST
        (some ⟨60⟩) "t" (init_blockchain id "g") =
      some ({ status := 200, body := "blk" },
        init_blockchain id "g" ++
          [generate_block id (init_block id "g") 60 "t"]) :=
  ⟨(router_dispatch id (fun _ => Except.ok "[]") (fun _ => Except.ok "blk")
      Method.PUT (some ⟨60⟩) "t" (init_blockchain id "g")).1 (by decide)
      (by decide),
    (router_dispatch id (fun _ => Except.ok "[]") (fun _ => Except.ok "blk")
      Method.GET (some ⟨60⟩) "t" (init_blockchain id "g")).2.1 "[]" rfl,
    (router_dispatch id (fun _ => Except.ok "[]") (fun _ => Except.ok "blk")
      Method.POST (some ⟨60⟩) "t" (init_blockchain id "g")).2.2 ⟨60⟩
      (init_block id "g") "blk" rfl rfl rfl⟩

/-- C9: the digest ignores the block's own hash field: replacing it leaves
calculate_hash unchanged, and in particular re-hashing a finished generated
block reproduces the hash field generate_block stored last. -/
theorem digest_ignores_hash_field (H : String → String) (b : Block)
    (h : String) (old : Block) (bpm : Nat) (ts : String) :
    calculate_hash H { b with hash := h } = calculate_hash H b ∧
      calculate_hash H (generate_block H old bpm ts) =
        (generate_block H old bpm ts).hash :=
  ⟨rfl, rfl⟩

/-- C10: payload and index are u64: negative JSON payloads fail to decode,
decoded payloads lie below 2 ^ 64, every block of a reachable chain keeps bpm
and index below 2 ^ 64, and the tail.index + 1 arithmetic is exact below the
wrap bound. -/
theorem payload_u64_representation :
    (∀ i : Int, i < 0 → decode_u64 i = none) ∧
    (∀ (i : Int) (v : Nat), decode_u64 i = some v → v < U64MOD) ∧
    (∀ (H : String → String) (n : Nat) (c : Blockchain), ReachableN H n c →
      ∀ b ∈ c, b.bpm < U64MOD ∧ b.index < U64MOD) ∧
    (∀ t : Nat, t < U64MOD - 1 → u64succ t = t + 1) := by
  refine ⟨?_, ?_, fun H n c hr => reachable_bounds hr, ?_⟩
  · intro i hi
    unfold decode_u64
    rw [if_neg]
    intro hpos
    omega
  · intro i v hv
    unfold decode_u64 at hv
    split_ifs at hv with h0
    injection hv with hv
    omega
  · intro t ht
    unfold u64succ
    exact Nat.mod_eq_of_lt (by omega)

/-- Witness for C10: a negative payload is rejected, a successor below the
wrap bound is exact, and the genesis chain's blocks are in u64 range. -/
theorem payload_u64_representation_witness :
    decode_u64 (-7) = none ∧ u64succ 41 = 42 ∧
      (∀ b ∈ init_blockchain id "g", b.bpm < U64MOD ∧ b.index < U64MOD) :=
  ⟨payload_u64_representation.1 (-7) (by decide),
    payload_u64_representation.2.2.2 41 (by decide),
    payload_u64_representation.2.2.1 id 0 (init_blockchain id "g")
      (ReachableN.genesis "g")⟩

end BlockchainTutorial
